import Mathlib

/-!
Verification of the Image Curation and Evidence Aggregation Pipeline
(wind-damage photo aggregator).

The development shallowly embeds the pipeline's core modules:

* `Dedup`   — src/src/models/dedup.py (`Deduplicator`)
* `Quality` — src/src/models/quality.py (`QualityAnalyzer`)
* `App`     — src/src/app.py (`process_images` quality gate)
* `Agg`     — src/src/utils/aggregation.py (`DamageAggregator`,
  `SeverityCalculator`, `DataGapAnalyzer`, `ConfidenceCalculator`)

Python floats are modelled as rationals (`ℚ`).  Every numeric comparison
that a theorem below depends on is exact in binary floating point in the
source (similarity values are multiples of 1/64, the 8x8 mean is an exact
sum divided by a power of two), so the rational model draws each threshold
at the same place as the float code, with the single exception of claims
about the literal constants 0.3 and 0.9 themselves, which are discussed at
the theorems that use them.  Image decoding (PIL / OpenCV) is abstracted:
an image is its identifier together with the outcome of decoding its
bytes, `none` standing for bytes the decoder rejects.
-/

namespace Dedup

/-- Outcome of decoding an image's bytes in dedup.py: the 8x8 grayscale
downsample used by `_calculate_perceptual_hash` (the source's
`image.convert('L').resize((8, 8))`, hence always 64 pixel values in
0..255) together with the original width and height used by
`_calculate_quality_score`. -/
structure DecodedImage where
  gray8x8 : List ℕ
  width : ℕ
  height : ℕ
deriving DecidableEq

/-- One input image of `Deduplicator.deduplicate`: the `(image_path,
image_bytes)` tuple, with the bytes represented by what they decode to
(`none` when `PIL.Image.open` raises, i.e. undecodable bytes). -/
structure Img where
  path : String
  decoded : Option DecodedImage
deriving DecidableEq

/-- dedup.py `_calculate_perceptual_hash`: grayscale, resize to 8x8,
threshold each pixel against the mean (`pixels > mean_pixel`); one hash
bit per pixel.  The hash string of characters '1'/'0' is modelled as a
`List Bool`.  The body catches every exception and returns the default
hash `'0' * 64`, so the function is total: decode failure yields the
all-zero hash.  `px > sum/len` is written `len * px > sum`, which is the
same cut (the float mean of 64 bytes is exact: the sum is an integer and
64 is a power of two). -/
def calculate_perceptual_hash (img : Img) : List Bool :=
  match img.decoded with
  | none => List.replicate 64 false
  | some d => d.gray8x8.map (fun px => decide (d.gray8x8.length * px > d.gray8x8.sum))

/-- dedup.py `_calculate_quality_score`: the cluster-ranking score,
`(resolution_score + aspect_score) / 2` clamped to [0, 1].  The body
catches every exception and returns `0.5`, which covers both undecodable
bytes and the `ZeroDivisionError` from `width / height` when the height
is zero. -/
def calculate_quality_score (img : Img) : ℚ :=
  match img.decoded with
  | none => 1/2
  | some d =>
      if d.height = 0 then 1/2
      else
        let resolution_score : ℚ := min 1 ((d.width * d.height : ℕ) / ((1920 * 1080 : ℕ) : ℚ))
        let aspect_ratio : ℚ := (d.width : ℚ) / (d.height : ℚ)
        let aspect_score : ℚ := if 1/2 ≤ aspect_ratio ∧ aspect_ratio ≤ 2 then 1 else 1/2
        max 0 (min 1 ((resolution_score + aspect_score) / 2))

/-- The per-image dictionary built in `Deduplicator.deduplicate` lines
48-53: path and bytes (kept as `img`), perceptual hash, quality score. -/
structure HashEntry where
  img : Img
  hash : List Bool
  quality_score : ℚ
deriving DecidableEq

/-- Building one entry of `image_hashes`.  The `try/except` around this
step in `deduplicate` (lines 44-56) never fires: both
`_calculate_perceptual_hash` and `_calculate_quality_score` catch all of
their own exceptions, so no image is ever skipped by the `continue`. -/
def mk_entry (img : Img) : HashEntry :=
  { img := img
    hash := calculate_perceptual_hash img
    quality_score := calculate_quality_score img }

/-- dedup.py: Hamming distance between two hash strings,
`sum(c1 != c2 for c1, c2 in zip(hash1, hash2))`. -/
def hamming_distance (hash1 hash2 : List Bool) : ℕ :=
  ((hash1.zip hash2).filter (fun p => decide (p.1 ≠ p.2))).length

/-- dedup.py `_calculate_similarity`: 0.0 on length mismatch, else
`1 - hamming / len(hash1)`.  (For the empty hash Python would raise a
`ZeroDivisionError`; that input is unreachable, every hash the pipeline
builds has 64 bits, and in ℚ the expression evaluates to 1.) -/
def calculate_similarity (hash1 hash2 : List Bool) : ℚ :=
  if hash1.length ≠ hash2.length then 0
  else 1 - (hamming_distance hash1 hash2 : ℚ) / (hash1.length : ℚ)

/-- The membership test of `_cluster_similar_images` line 170:
`similarity >= self.similarity_threshold` with threshold 0.9.  Similarity
values are multiples of 1/64 and are exact in floating point, so the
float comparison against 0.9 admits exactly the same pairs as the
rational one (58/64 = 0.90625 passes, 57/64 = 0.890625 does not). -/
def is_similar (seed e : HashEntry) : Bool :=
  decide ((9:ℚ)/10 ≤ calculate_similarity seed.hash e.hash)

/-- Fuel-indexed recursion for `_cluster_similar_images`; the fuel only
serves to make the recursion structural (so that concrete runs reduce in
the kernel), and `cluster_similar_images` below supplies enough fuel for
it to be irrelevant. -/
def csi_fuel : ℕ → List HashEntry → List (List HashEntry)
  | 0, _ => []
  | _ + 1, [] => []
  | n + 1, seed :: rest =>
      (seed :: rest.filter (is_similar seed)) ::
        csi_fuel n (rest.filter (fun e => ! is_similar seed e))

/-- dedup.py `_cluster_similar_images`: greedy seed-based clustering.
The source iterates indices with a `processed` set: each not-yet-assigned
image opens a cluster and absorbs every later unassigned image whose
similarity to it (the seed) meets the threshold.  Functionally: the first
remaining image is the seed, the similar part of the remainder joins its
cluster, and the recursion continues on the dissimilar part in order. -/
def cluster_similar_images (image_hashes : List HashEntry) : List (List HashEntry) :=
  csi_fuel image_hashes.length image_hashes

/-- The selection `max(cluster, key=lambda x: x['quality_score'])` of dedup.py line 66:
Python's `max` keeps the earliest element among ties, replacing the
current best only on a strictly larger key. -/
def cluster_best : List HashEntry → Option HashEntry
  | [] => none
  | a :: l =>
      some (l.foldl (fun acc x => if acc.quality_score < x.quality_score then x else acc) a)

/-- dedup.py `Deduplicator.deduplicate`: identity on lists of at most one
image, else hash everything, cluster, and keep the best-quality member of
each (non-empty) cluster. -/
def deduplicate (images : List Img) : List Img :=
  if images.length ≤ 1 then images
  else
    ((cluster_similar_images (images.map mk_entry)).filterMap cluster_best).map HashEntry.img

/-- schemas.py `DeduplicationResult` (Python ints, hence `ℤ`). -/
structure DeduplicationResult where
  total_images : ℤ
  clusters : ℤ
  duplicates_removed : ℤ
  cluster_sizes : List ℤ
deriving DecidableEq

/-- dedup.py `Deduplicator.get_cluster_info`. -/
def get_cluster_info (images : List Img) : DeduplicationResult :=
  if images.length ≤ 1 then
    { total_images := images.length
      clusters := images.length
      duplicates_removed := 0
      cluster_sizes := List.replicate images.length 1 }
  else
    let clusters := cluster_similar_images (images.map mk_entry)
    { total_images := images.length
      clusters := clusters.length
      duplicates_removed := (images.length : ℤ) - clusters.length
      cluster_sizes := clusters.map (fun c => (c.length : ℤ)) }

end Dedup

namespace Quality

/-- Outcome of `cv2.imdecode` on an image accepted by the decoder, as
seen by the four sub-metrics of quality.py: the Laplacian variance of
the grayscale image, the mean HSV value-channel intensity, the standard
deviation of the grayscale intensities, and the pixel dimensions. -/
structure QImage where
  laplacian_var : ℚ
  avg_brightness : ℚ
  contrast_std : ℚ
  width : ℕ
  height : ℕ
deriving DecidableEq

/-- quality.py `_calculate_blur_score`: `min(1.0, laplacian_var / 100.0)`. -/
def calculate_blur_score (image : QImage) : ℚ :=
  min 1 (image.laplacian_var / 100)

/-- quality.py `_calculate_brightness_score`:
`max(0, min(1, 1 - |avg - 128| / 128))`. -/
def calculate_brightness_score (image : QImage) : ℚ :=
  max 0 (min 1 (1 - |image.avg_brightness - 128| / 128))

/-- quality.py `_calculate_contrast_score`: `min(1.0, contrast / 50.0)`. -/
def calculate_contrast_score (image : QImage) : ℚ :=
  min 1 (image.contrast_std / 50)

/-- quality.py `_calculate_size_score`: 0 below the 200px minimum, 0.5
above the 8000px maximum, otherwise closeness of the pixel count to
1024*1024, clamped to [0, 1]. -/
def calculate_size_score (image : QImage) : ℚ :=
  if image.width < 200 ∨ image.height < 200 then 0
  else if 8000 < image.width ∨ 8000 < image.height then 1/2
  else
    let area : ℚ := ((image.width * image.height : ℕ) : ℚ)
    let optimal_area : ℚ := 1024 * 1024
    max 0 (min 1 (min (area / optimal_area) (optimal_area / area)))

/-- quality.py `QualityAnalyzer.analyze_single_image`.  `cv2.imdecode`
returning `None` (undecodable bytes) is the `none` case and scores 0.0;
the enclosing `try/except` also returns 0.0, and each sub-metric catches
its own exceptions (falling back to 0.5), so the function is total and
the argument is just the decode outcome. -/
def analyze_single_image (decoded : Option QImage) : ℚ :=
  match decoded with
  | none => 0
  | some image =>
      max 0 (min 1
        (calculate_blur_score image * (4/10) + calculate_brightness_score image * (3/10) +
          calculate_contrast_score image * (2/10) + calculate_size_score image * (1/10)))

/-- quality.py `QualityAnalyzer.is_acceptable_quality`:
`quality_score >= 0.3`. -/
def is_acceptable_quality (quality_score : ℚ) : Bool :=
  decide ((3:ℚ)/10 ≤ quality_score)

end Quality

namespace App

/-- app.py `process_images` line 136:
`high_quality_images = [img for img, score in quality_results if score > 0.3]`
— the pipeline's admission gate on the `(image, score)` pairs returned by
`analyze_batch`.  Note the strict `>`. -/
def filter_high_quality {α : Type} (quality_results : List (α × ℚ)) : List α :=
  (quality_results.filter (fun p => decide ((3:ℚ)/10 < p.2))).map Prod.fst

end App

namespace Agg

/-- schemas.py `DamageArea` (a str-valued enum). -/
inductive DamageArea
  | roof
  | attic
  | siding
  | garage
  | windows
  | gutters
  | unknown
deriving DecidableEq

/-- The `.value` string of each `DamageArea` member.  Because the enum
mixes in `str` and the pydantic models use `use_enum_values=True`, this
string is also what downstream f-strings interpolate. -/
def DamageArea.value : DamageArea → String
  | .roof => "roof"
  | .attic => "attic"
  | .siding => "siding"
  | .garage => "garage"
  | .windows => "windows"
  | .gutters => "gutters"
  | .unknown => "unknown"

/-- schemas.py `DamageAnalysis`, restricted to the fields the aggregation
stage reads.  `severity` is the integer value of the `DamageSeverity`
enum (0=NONE .. 4=SEVERE); `damage_indicators` is omitted because no
aggregation path that the claims touch reads it
(`_count_damage_types` is never called). -/
structure DamageAnalysis where
  image_path : String
  has_damage : Bool
  area : DamageArea
  severity : ℕ
  quality_score : ℚ
  confidence : ℚ
  error : Option String
  notes : String
deriving DecidableEq

/-- schemas.py `DamageAreaInfo`. -/
structure DamageAreaInfo where
  area : DamageArea
  damage_confirmed : Bool
  primary_peril : String
  count : ℕ
  avg_severity : ℚ
  representative_images : List String
  notes : String
deriving DecidableEq

/-- Python 3 `round` resolves exact halves to the even integer. -/
def round_half_even (x : ℚ) : ℤ :=
  if x - ⌊x⌋ < 1/2 then ⌊x⌋
  else if 1/2 < x - ⌊x⌋ then ⌊x⌋ + 1
  else if ⌊x⌋ % 2 = 0 then ⌊x⌋ else ⌊x⌋ + 1

/-- Python `round(x, n)` on our rational model of floats. -/
def py_round (n : ℕ) (x : ℚ) : ℚ :=
  (round_half_even (x * (10:ℚ)^n) : ℚ) / (10:ℚ)^n

/-- aggregation.py `DamageAggregator._check_damage_confirmation`:
fewer than `confirmation_threshold = 2` damaged results is an immediate
`False`; otherwise confirm iff at least 2 results have severity at least
`severity_threshold = DamageSeverity.MODERATE = 2`. -/
def check_damage_confirmation (damage_results : List DamageAnalysis) : Bool :=
  if damage_results.length < 2 then false
  else decide (2 ≤ (damage_results.filter (fun r => decide (2 ≤ r.severity))).length)

/-- aggregation.py `DamageAggregator._calculate_area_severity`: the
quality-score-weighted mean severity, falling back to the unweighted
mean when the total weight is not positive, and 0.0 on the empty list. -/
def calculate_area_severity (damage_results : List DamageAnalysis) : ℚ :=
  if damage_results = [] then 0
  else
    let total_weight := (damage_results.map (fun r => r.quality_score)).sum
    if 0 < total_weight then
      (damage_results.map (fun r => (r.severity : ℚ) * r.quality_score)).sum / total_weight
    else
      (damage_results.map (fun r => (r.severity : ℚ))).sum / (damage_results.length : ℚ)

/-- aggregation.py `DamageAggregator._select_representative_images`:
sort descending by quality score (Python's stable sort keeps input order
among ties, which the merge sort below with a not-strictly-less relation
reproduces) and keep the top `max_representative_images = 3` paths. -/
def select_representative_images (damage_results : List DamageAnalysis) : List String :=
  ((damage_results.mergeSort (fun a b => decide (b.quality_score ≤ a.quality_score))).take 3).map
    (fun r => r.image_path)

/-- Python `list(dict.fromkeys(xs))`: drop later duplicates, keeping
first occurrences in order. -/
def py_unique : List String → List String
  | [] => []
  | a :: l => a :: py_unique (l.filter (fun x => decide (x ≠ a)))
termination_by l => l.length
decreasing_by
  simp only [List.length_cons]
  exact Nat.lt_succ_of_le (List.length_filter_le _ _)

/-- aggregation.py `DamageAggregator._generate_area_notes`.  A
classification contributes its note only when the note is a non-empty
string (Python truthiness of `r.notes`). -/
def generate_area_notes (area : DamageArea) (damage_results : List DamageAnalysis) : String :=
  if damage_results = [] then
    "No damage detected in " ++ area.value
  else
    let notes_list := (damage_results.filter (fun r => decide (r.notes ≠ ""))).map
      (fun r => r.notes)
    if notes_list ≠ [] then String.intercalate ("; ") (py_unique notes_list)
    else "Damage detected in " ++ area.value

/-- aggregation.py `DamageAggregator._process_area`: filter to
`has_damage` entries, then assemble the `DamageAreaInfo` (confirmation,
rounded weighted severity, representatives, notes; `count` is the size
of the damaged subset). -/
def process_area (area : DamageArea) (results : List DamageAnalysis) : DamageAreaInfo :=
  let damage_results := results.filter (fun r => r.has_damage)
  { area := area
    damage_confirmed := check_damage_confirmation damage_results
    primary_peril := "wind"
    count := damage_results.length
    avg_severity := py_round 1 (calculate_area_severity damage_results)
    representative_images := select_representative_images damage_results
    notes := generate_area_notes area damage_results }

/-- aggregation.py `SeverityCalculator.calculate_overall_severity`:
quality-weighted mean severity over all damaged classifications of the
whole claim, unweighted mean when the total weight is exactly zero, 0.0
when nothing is damaged; rounded to one decimal. -/
def calculate_overall_severity (damage_results : List DamageAnalysis) : ℚ :=
  if damage_results = [] then 0
  else
    let filtered := damage_results.filter (fun r => r.has_damage)
    if filtered = [] then 0
    else
      let total_weight := (filtered.map (fun r => r.quality_score)).sum
      if total_weight = 0 then
        py_round 1 ((filtered.map (fun r => (r.severity : ℚ))).sum / (filtered.length : ℚ))
      else
        py_round 1 ((filtered.map (fun r => (r.severity : ℚ) * r.quality_score)).sum / total_weight)

/-- aggregation.py line 200: the `critical_areas` set literal of
`DataGapAnalyzer`, in source order.  It is a Python `set`, so the order
in which `identify_data_gaps` iterates over it (and over the set
difference built from it) is an implementation detail of hashing — with
string-hash randomization it is not even stable across processes.  The
functions below therefore take the iteration order as a parameter,
quantified over the permutations of this list. -/
def critical_areas : List DamageArea :=
  [.roof, .attic, .siding, .garage, .windows, .gutters]

/-- aggregation.py `DataGapAnalyzer.identify_data_gaps`.  `set_order` is
the iteration order of the `critical_areas` set (see `critical_areas`);
the missing-area gaps are emitted in the induced order, then the
insufficient-photo gaps, the unconfirmed gaps, and the coverage
catch-all (`min_photos_per_area = 2`, `min_total_areas = 2`). -/
def identify_data_gaps (set_order : List DamageArea) (areas : List DamageAreaInfo) :
    List String :=
  let analyzed_areas := areas.map (fun a => a.area)
  let missing_critical := set_order.filter (fun a => decide (a ∉ analyzed_areas))
  let gaps_missing := missing_critical.map (fun a => "No " ++ a.value ++ " photos")
  let low := areas.filter (fun a => decide (a.count < 2))
  let gaps_low := low.map
    (fun a => "Insufficient " ++ a.area.value ++ " photos (" ++ toString a.count ++ " images)")
  let unconfirmed := areas.filter (fun a => !a.damage_confirmed && decide (0 < a.count))
  let gaps_unconfirmed := unconfirmed.map
    (fun a => "Unconfirmed " ++ a.area.value ++ " damage (severity too low)")
  let gaps_coverage := if areas.length < 2 then ["Limited area coverage - need more photos"] else []
  gaps_missing ++ gaps_low ++ gaps_unconfirmed ++ gaps_coverage

/-- aggregation.py `ConfidenceCalculator.calculate_confidence`: 0.0 on
the empty list, else the weighted blend of mean quality (0.3), area
coverage (0.2), consistency (0.2) and mean per-image confidence (0.3),
rounded to two decimals. -/
def calculate_confidence (damage_results : List DamageAnalysis) : ℚ :=
  if damage_results = [] then 0
  else
    let total_images : ℕ := damage_results.length
    let damage_images : ℕ := (damage_results.filter (fun r => r.has_damage)).length
    let avg_quality : ℚ := (damage_results.map (fun r => r.quality_score)).sum / (total_images : ℚ)
    let unique_areas : ℕ :=
      (((damage_results.filter (fun r => decide (r.area ≠ .unknown))).map
        (fun r => r.area)).dedup).length
    let coverage_factor : ℚ := min 1 ((unique_areas : ℚ) / 3)
    let consistency_factor : ℚ :=
      if 0 < damage_images then (damage_images : ℚ) / (total_images : ℚ) else 1/2
    let avg_confidence : ℚ := (damage_results.map (fun r => r.confidence)).sum / (total_images : ℚ)
    py_round 2
      (avg_quality * (3/10) + coverage_factor * (2/10) + consistency_factor * (2/10) +
        avg_confidence * (3/10))

end Agg

namespace Ex

/-- An image whose bytes the decoder rejects: its perceptual hash
computation fails internally (and falls back to the default hash), its
dedup quality score falls back to 0.5. -/
def bad_img : Dedup.Img := ⟨"bad", none⟩

/-- A decodable image whose 8x8 downsample is uniform (hash all zeros,
like the default hash) and whose extreme 10x100 geometry gives it a
dedup quality score below 0.5. -/
def dark_img : Dedup.Img := ⟨"dark", some ⟨List.replicate 64 100, 10, 100⟩⟩

/-- Uniform 8x8 downsample (all-zero hash); 4000x1000 so the aspect
ratio 4 is penalized: dedup quality score 3/4. -/
def img_a : Dedup.Img := ⟨"a", some ⟨List.replicate 64 100, 4000, 1000⟩⟩

/-- Hash with six 1-bits (Hamming distance 6 from `img_a`'s hash);
1920x1080, dedup quality score 1. -/
def img_b : Dedup.Img :=
  ⟨"b", some ⟨List.replicate 6 255 ++ List.replicate 58 0, 1920, 1080⟩⟩

/-- Hash with seven 1-bits (Hamming distance 7 from `img_a`'s hash, 1
from `img_b`'s); 1024x1024, dedup quality score below 1. -/
def img_c : Dedup.Img :=
  ⟨"c", some ⟨List.replicate 7 255 ++ List.replicate 57 0, 1024, 1024⟩⟩

/-- A second copy of `img_b`'s pixel data under another identifier:
identical perceptual hash. -/
def img_b2 : Dedup.Img :=
  ⟨"b2", some ⟨List.replicate 6 255 ++ List.replicate 58 0, 800, 600⟩⟩

/-- A damaged severity-3 classification used by witnesses. -/
def cls1 : Agg.DamageAnalysis :=
  { image_path := "p1", has_damage := true, area := .roof, severity := 3
    quality_score := 1/2, confidence := 4/5, error := none, notes := "hole" }

/-- A second damaged severity-2 classification used by witnesses. -/
def cls2 : Agg.DamageAnalysis :=
  { image_path := "p2", has_damage := true, area := .roof, severity := 2
    quality_score := 9/10, confidence := 3/5, error := none, notes := "" }

/-- An undamaged classification used by witnesses. -/
def cls3 : Agg.DamageAnalysis :=
  { image_path := "p3", has_damage := false, area := .siding, severity := 0
    quality_score := 1, confidence := 1/2, error := none, notes := "" }

end Ex

namespace Dedup

theorem csi_fuel_congr : ∀ (n m : ℕ) (l : List HashEntry), l.length ≤ n → l.length ≤ m →
    csi_fuel n l = csi_fuel m l := by
  intro n
  induction n with
  | zero =>
      intro m l hn _
      have : l = [] := List.eq_nil_of_length_eq_zero (Nat.le_zero.mp hn)
      subst this
      cases m <;> rfl
  | succ k ih =>
      intro m l hn hm
      cases l with
      | nil => cases m <;> rfl
      | cons seed rest =>
          cases m with
          | zero => exact absurd hm (by simp)
          | succ m' =>
              simp only [csi_fuel]
              congr 1
              exact ih m' _
                (le_trans (List.length_filter_le _ _) (Nat.le_of_succ_le_succ hn))
                (le_trans (List.length_filter_le _ _) (Nat.le_of_succ_le_succ hm))

theorem cluster_similar_images_nil : cluster_similar_images [] = [] := rfl

theorem cluster_similar_images_cons (seed : HashEntry) (rest : List HashEntry) :
    cluster_similar_images (seed :: rest) =
      (seed :: rest.filter (is_similar seed)) ::
        cluster_similar_images (rest.filter (fun e => ! is_similar seed e)) := by
  unfold cluster_similar_images
  simp only [List.length_cons, csi_fuel]
  congr 1
  exact csi_fuel_congr _ _ _ (List.length_filter_le _ _) le_rfl

/-- Strong-induction scheme on the list length, used for the clustering
lemmas below. -/
theorem csi_induction (P : List HashEntry → Prop) (h0 : P [])
    (h1 : ∀ seed rest, P (rest.filter (fun e => ! is_similar seed e)) → P (seed :: rest)) :
    ∀ l, P l := by
  have key : ∀ (n : ℕ) (l : List HashEntry), l.length ≤ n → P l := by
    intro n
    induction n with
    | zero =>
        intro l hl
        have : l = [] := List.eq_nil_of_length_eq_zero (Nat.le_zero.mp hl)
        subst this
        exact h0
    | succ k ih =>
        intro l hl
        cases l with
        | nil => exact h0
        | cons seed rest =>
            exact h1 seed rest
              (ih _ (le_trans (List.length_filter_le _ _) (Nat.le_of_succ_le_succ hl)))
  intro l
  exact key l.length l le_rfl

/-- The clusters carry exactly the input entries (with multiplicity):
flattening the cluster list is a permutation of the input. -/
theorem csi_flatten_perm (l : List HashEntry) :
    List.Perm (cluster_similar_images l).flatten l := by
  induction l using csi_induction with
  | h0 => simp [cluster_similar_images_nil]
  | h1 seed rest ih =>
      rw [cluster_similar_images_cons]
      simp only [List.flatten_cons]
      have h2 : List.Perm
          (rest.filter (is_similar seed) ++
            (cluster_similar_images (rest.filter (fun e => ! is_similar seed e))).flatten)
          rest :=
        (List.Perm.append_left _ ih).trans (List.filter_append_perm _ _)
      simpa using h2.cons seed

/-- Multiplicity form of the partition property: each entry occurs in
the clusters, in total, exactly as often as in the input. -/
theorem csi_count (l : List HashEntry) (e : HashEntry) :
    ((cluster_similar_images l).map (List.count e)).sum = l.count e := by
  rw [← List.count_flatten]
  exact (csi_flatten_perm l).count_eq e

/-- No cluster is empty. -/
theorem csi_ne_nil (l : List HashEntry) : ∀ c ∈ cluster_similar_images l, c ≠ [] := by
  induction l using csi_induction with
  | h0 => simp [cluster_similar_images_nil]
  | h1 seed rest ih =>
      rw [cluster_similar_images_cons]
      intro c hc
      rcases List.mem_cons.mp hc with h | h
      · subst h; simp
      · exact ih c h

/-- There are at most as many clusters as input entries. -/
theorem csi_length_le (l : List HashEntry) :
    (cluster_similar_images l).length ≤ l.length := by
  induction l using csi_induction with
  | h0 => simp [cluster_similar_images_nil]
  | h1 seed rest ih =>
      rw [cluster_similar_images_cons]
      simp only [List.length_cons]
      exact Nat.succ_le_succ (le_trans ih (List.length_filter_le _ _))

/-- Every input entry lands in some cluster. -/
theorem csi_mem (l : List HashEntry) (e : HashEntry) (he : e ∈ l) :
    ∃ c ∈ cluster_similar_images l, e ∈ c := by
  have : e ∈ (cluster_similar_images l).flatten := ((csi_flatten_perm l).mem_iff).mpr he
  exact List.mem_flatten.mp this

theorem hamming_distance_self (h : List Bool) : hamming_distance h h = 0 := by
  induction h with
  | nil => rfl
  | cons a l ih => simp [hamming_distance, List.filter] at ih ⊢

theorem calculate_similarity_self (h : List Bool) : calculate_similarity h h = 1 := by
  simp [calculate_similarity, hamming_distance_self]

theorem is_similar_congr (s : HashEntry) {e1 e2 : HashEntry} (h : e1.hash = e2.hash) :
    is_similar s e1 = is_similar s e2 := by
  simp [is_similar, h]

theorem is_similar_self_hash (s e : HashEntry) (h : s.hash = e.hash) :
    is_similar s e = true := by
  rw [is_similar, ← h, calculate_similarity_self]
  norm_num

/-- Every cluster is its seed followed by members that passed the direct
similarity test against the seed. -/
theorem csi_cluster_shape (l : List HashEntry) :
    ∀ c ∈ cluster_similar_images l,
      ∃ s t, c = s :: t ∧ ∀ e ∈ t, is_similar s e = true := by
  induction l using csi_induction with
  | h0 => simp [cluster_similar_images_nil]
  | h1 seed rest ih =>
      rw [cluster_similar_images_cons]
      intro c hc
      rcases List.mem_cons.mp hc with h | h
      · exact ⟨seed, rest.filter (is_similar seed), h,
          fun e he => (List.mem_filter.mp he).2⟩
      · exact ih c h

/-- Two entries with the same hash always end up in one common cluster:
whichever of them first meets a seed's direct test, the other meets the
same test in the same scan (or is that seed itself). -/
theorem csi_same_hash (l : List HashEntry) (e1 e2 : HashEntry) (h1 : e1 ∈ l) (h2 : e2 ∈ l)
    (hh : e1.hash = e2.hash) :
    ∃ c ∈ cluster_similar_images l, e1 ∈ c ∧ e2 ∈ c := by
  induction l using csi_induction with
  | h0 => simp at h1
  | h1 seed rest ih =>
      rw [cluster_similar_images_cons]
      by_cases hs1 : e1 = seed
      · refine ⟨seed :: rest.filter (is_similar seed), List.mem_cons_self _ _, by simp [hs1], ?_⟩
        by_cases hs2 : e2 = seed
        · simp [hs2]
        · have he2 : e2 ∈ rest := (List.mem_cons.mp h2).resolve_left hs2
          have hsim : is_similar seed e2 = true := by
            subst hs1
            exact is_similar_self_hash _ _ hh
          exact List.mem_cons_of_mem _ (List.mem_filter.mpr ⟨he2, hsim⟩)
      · by_cases hs2 : e2 = seed
        · refine ⟨seed :: rest.filter (is_similar seed), List.mem_cons_self _ _, ?_, by simp [hs2]⟩
          have he1 : e1 ∈ rest := (List.mem_cons.mp h1).resolve_left hs1
          have hsim : is_similar seed e1 = true := by
            subst hs2
            exact is_similar_self_hash _ _ hh.symm
          exact List.mem_cons_of_mem _ (List.mem_filter.mpr ⟨he1, hsim⟩)
        · have he1 : e1 ∈ rest := (List.mem_cons.mp h1).resolve_left hs1
          have he2 : e2 ∈ rest := (List.mem_cons.mp h2).resolve_left hs2
          by_cases hsim : is_similar seed e1 = true
          · have hsim2 : is_similar seed e2 = true := (is_similar_congr seed hh) ▸ hsim
            exact ⟨seed :: rest.filter (is_similar seed), List.mem_cons_self _ _,
              List.mem_cons_of_mem _ (List.mem_filter.mpr ⟨he1, hsim⟩),
              List.mem_cons_of_mem _ (List.mem_filter.mpr ⟨he2, hsim2⟩)⟩
          · have hsim2 : ¬ is_similar seed e2 = true := fun hx =>
              hsim ((is_similar_congr seed hh) ▸ hx)
            obtain ⟨c, hc, hm1, hm2⟩ := ih
              (List.mem_filter.mpr ⟨he1, by simp [hsim]⟩)
              (List.mem_filter.mpr ⟨he2, by simp [hsim2]⟩)
            exact ⟨c, List.mem_cons_of_mem _ hc, hm1, hm2⟩

/-- For 64-bit hashes, Hamming distance above 6 means the similarity is
strictly below the 0.9 threshold: such a pair never passes a direct
comparison. -/
theorem similarity_lt_of_hamming_gt (h1 h2 : List Bool) (l1 : h1.length = 64)
    (l2 : h2.length = 64) (hd : 6 < hamming_distance h1 h2) :
    calculate_similarity h1 h2 < 9/10 := by
  rw [calculate_similarity, if_neg (by rw [l1, l2]; exact fun h => h rfl)]
  rw [l1]
  have h7 : (7 : ℚ) ≤ (hamming_distance h1 h2 : ℚ) := by exact_mod_cast hd
  have : (7 : ℚ) / 64 ≤ (hamming_distance h1 h2 : ℚ) / 64 := by linarith
  linarith

/-- For equal-length hashes, Hamming distance zero is hash equality. -/
theorem hamming_eq_zero_iff : ∀ (h1 h2 : List Bool), h1.length = h2.length →
    (hamming_distance h1 h2 = 0 ↔ h1 = h2) := by
  intro h1
  induction h1 with
  | nil =>
      intro h2 hl
      have : h2 = [] := List.eq_nil_of_length_eq_zero hl.symm
      subst this
      simp [hamming_distance]
  | cons a t1 ih =>
      intro h2 hl
      cases h2 with
      | nil => simp at hl
      | cons b t2 =>
          simp only [List.length_cons, Nat.succ_inj] at hl
          by_cases hab : a = b
          · subst hab
            have : hamming_distance (a :: t1) (a :: t2) = hamming_distance t1 t2 := by
              simp [hamming_distance, List.zip, List.filter]
            rw [this]
            rw [ih t2 hl]
            simp
          · constructor
            · intro h0
              exfalso
              have : hamming_distance (a :: t1) (b :: t2) =
                  hamming_distance t1 t2 + 1 := by
                simp [hamming_distance, List.zip, List.filter, hab]
              omega
            · intro he
              exact absurd (List.cons.injEq a t1 b t2 ▸ congrArg id he) (by simp [hab])

/-- Conversely, a pair that passes the direct test has Hamming distance
at most 6 (again for 64-bit hashes). -/
theorem hamming_le_of_is_similar (s e : HashEntry) (l1 : s.hash.length = 64)
    (l2 : e.hash.length = 64) (hs : is_similar s e = true) :
    hamming_distance s.hash e.hash ≤ 6 := by
  by_contra hgt
  have := similarity_lt_of_hamming_gt s.hash e.hash l1 l2 (Nat.lt_of_not_le hgt)
  rw [is_similar, decide_eq_true_eq] at hs
  linarith

end Dedup

namespace Ex

theorem hash_bad : Dedup.calculate_perceptual_hash bad_img = List.replicate 64 false := rfl

theorem hash_dark : Dedup.calculate_perceptual_hash dark_img = List.replicate 64 false := by
  decide

theorem hash_a : Dedup.calculate_perceptual_hash img_a = List.replicate 64 false := by
  decide

theorem hash_b : Dedup.calculate_perceptual_hash img_b =
    List.replicate 6 true ++ List.replicate 58 false := by
  decide

theorem hash_c : Dedup.calculate_perceptual_hash img_c =
    List.replicate 7 true ++ List.replicate 57 false := by
  decide

theorem hash_b2 : Dedup.calculate_perceptual_hash img_b2 =
    List.replicate 6 true ++ List.replicate 58 false := by
  decide

theorem q_bad : Dedup.calculate_quality_score bad_img = 1/2 := rfl

theorem q_dark : Dedup.calculate_quality_score dark_img = 5189/20736 := by
  norm_num [Dedup.calculate_quality_score, dark_img, min_def, max_def]

theorem q_a : Dedup.calculate_quality_score img_a = 3/4 := by
  norm_num [Dedup.calculate_quality_score, img_a, min_def, max_def]

theorem q_b : Dedup.calculate_quality_score img_b = 1 := by
  norm_num [Dedup.calculate_quality_score, img_b, min_def, max_def]

theorem q_c : Dedup.calculate_quality_score img_c = 1561088/2073600 := by
  norm_num [Dedup.calculate_quality_score, img_c, min_def, max_def]

theorem sim_ab : Dedup.calculate_similarity (List.replicate 64 false)
    (List.replicate 6 true ++ List.replicate 58 false) = 29/32 := by
  rw [Dedup.calculate_similarity, if_neg (by decide)]
  rw [show Dedup.hamming_distance (List.replicate 64 false)
    (List.replicate 6 true ++ List.replicate 58 false) = 6 from by decide]
  norm_num

theorem sim_ac : Dedup.calculate_similarity (List.replicate 64 false)
    (List.replicate 7 true ++ List.replicate 57 false) = 57/64 := by
  rw [Dedup.calculate_similarity, if_neg (by decide)]
  rw [show Dedup.hamming_distance (List.replicate 64 false)
    (List.replicate 7 true ++ List.replicate 57 false) = 7 from by decide]
  norm_num

theorem sim_bc : Dedup.calculate_similarity
    (List.replicate 6 true ++ List.replicate 58 false)
    (List.replicate 7 true ++ List.replicate 57 false) = 63/64 := by
  rw [Dedup.calculate_similarity, if_neg (by decide)]
  rw [show Dedup.hamming_distance (List.replicate 6 true ++ List.replicate 58 false)
    (List.replicate 7 true ++ List.replicate 57 false) = 1 from by decide]
  norm_num

theorem isim_ab : Dedup.is_similar (Dedup.mk_entry img_a) (Dedup.mk_entry img_b) = true := by
  rw [Dedup.is_similar, decide_eq_true_eq]
  show (9:ℚ)/10 ≤ Dedup.calculate_similarity (Dedup.calculate_perceptual_hash img_a)
    (Dedup.calculate_perceptual_hash img_b)
  rw [hash_a, hash_b, sim_ab]
  norm_num

theorem isim_ac : Dedup.is_similar (Dedup.mk_entry img_a) (Dedup.mk_entry img_c) = false := by
  rw [Dedup.is_similar, decide_eq_false_iff_not]
  show ¬ (9:ℚ)/10 ≤ Dedup.calculate_similarity (Dedup.calculate_perceptual_hash img_a)
    (Dedup.calculate_perceptual_hash img_c)
  rw [hash_a, hash_c, sim_ac]
  norm_num

theorem isim_bc : Dedup.is_similar (Dedup.mk_entry img_b) (Dedup.mk_entry img_c) = true := by
  rw [Dedup.is_similar, decide_eq_true_eq]
  show (9:ℚ)/10 ≤ Dedup.calculate_similarity (Dedup.calculate_perceptual_hash img_b)
    (Dedup.calculate_perceptual_hash img_c)
  rw [hash_b, hash_c, sim_bc]
  norm_num

theorem isim_bad_dark :
    Dedup.is_similar (Dedup.mk_entry bad_img) (Dedup.mk_entry dark_img) = true := by
  rw [Dedup.is_similar, decide_eq_true_eq]
  show (9:ℚ)/10 ≤ Dedup.calculate_similarity (Dedup.calculate_perceptual_hash bad_img)
    (Dedup.calculate_perceptual_hash dark_img)
  rw [hash_bad, hash_dark, Dedup.calculate_similarity_self]
  norm_num

theorem entry_q_bad : (Dedup.mk_entry bad_img).quality_score = 1/2 := q_bad

theorem entry_q_dark : (Dedup.mk_entry dark_img).quality_score = 5189/20736 := q_dark

theorem entry_q_a : (Dedup.mk_entry img_a).quality_score = 3/4 := q_a

theorem entry_q_b : (Dedup.mk_entry img_b).quality_score = 1 := q_b

theorem entry_q_c : (Dedup.mk_entry img_c).quality_score = 1561088/2073600 := q_c

theorem entry_img (i : Dedup.Img) : (Dedup.mk_entry i).img = i := rfl

/-- Running `deduplicate` on the A, B, C example: A opens a cluster and
absorbs B (distance 6) but not C (distance 7); B wins its cluster on
quality; C is alone.  The representatives are B and C. -/
theorem dedup_abc : Dedup.deduplicate [img_a, img_b, img_c] = [img_b, img_c] := by
  rw [Dedup.deduplicate, if_neg (by decide)]
  norm_num [Dedup.cluster_similar_images_cons, Dedup.cluster_similar_images_nil,
    Dedup.cluster_best, isim_ab, isim_ac, isim_bc, entry_q_a, entry_q_b, entry_q_c, entry_img,
    List.filterMap_cons, List.filterMap_nil, List.foldl_cons, List.foldl_nil]

/-- Running `deduplicate` on [B, C]: B absorbs C directly (distance 1)
and wins on quality, so only B survives. -/
theorem dedup_bc : Dedup.deduplicate [img_b, img_c] = [img_b] := by
  rw [Dedup.deduplicate, if_neg (by decide)]
  norm_num [Dedup.cluster_similar_images_cons, Dedup.cluster_similar_images_nil,
    Dedup.cluster_best, isim_bc, entry_q_b, entry_q_c, entry_img,
    List.filterMap_cons, List.filterMap_nil, List.foldl_cons, List.foldl_nil]

/-- Running `deduplicate` on the undecodable image together with the
low-quality dark image: both hash to all zeros, so they form one
cluster, and the undecodable image (fallback quality 0.5) beats the dark
image (quality ≈ 0.25) and is returned as the representative. -/
theorem dedup_bad_dark : Dedup.deduplicate [bad_img, dark_img] = [bad_img] := by
  rw [Dedup.deduplicate, if_neg (by decide)]
  norm_num [Dedup.cluster_similar_images_cons, Dedup.cluster_similar_images_nil,
    Dedup.cluster_best, isim_bad_dark, entry_q_bad, entry_q_dark, entry_img,
    List.filterMap_cons, List.filterMap_nil, List.foldl_cons, List.foldl_nil]

/-- Running `deduplicate` on the dissimilar pair [A, C]: two singleton
clusters, output unchanged. -/
theorem dedup_ac : Dedup.deduplicate [img_a, img_c] = [img_a, img_c] := by
  rw [Dedup.deduplicate, if_neg (by decide)]
  norm_num [Dedup.cluster_similar_images_cons, Dedup.cluster_similar_images_nil,
    Dedup.cluster_best, isim_ac, entry_img,
    List.filterMap_cons, List.filterMap_nil, List.foldl_cons, List.foldl_nil]

end Ex

namespace Dedup

/-- On a pairwise-dissimilar entry list the greedy clustering produces
only singleton clusters. -/
theorem csi_singletons : ∀ l : List HashEntry,
    l.Pairwise (fun a b => is_similar a b = false) →
    cluster_similar_images l = l.map (fun e => [e]) := by
  intro l
  induction l using csi_induction with
  | h0 => intro _; simp [cluster_similar_images_nil]
  | h1 seed rest ih =>
      intro h
      obtain ⟨hhead, htail⟩ := List.pairwise_cons.mp h
      have hfilt : rest.filter (is_similar seed) = [] := by
        rw [List.filter_eq_nil_iff]
        intro e he
        simp [hhead e he]
      have hrem : rest.filter (fun e => ! is_similar seed e) = rest := by
        rw [List.filter_eq_self]
        intro e he
        simp [hhead e he]
      rw [cluster_similar_images_cons, hfilt, List.map_cons]
      rw [hrem] at ih ⊢
      rw [ih htail]

/-- Selecting the best of each singleton cluster returns the entries
themselves. -/
theorem filterMap_best_singletons (l : List HashEntry) :
    List.filterMap cluster_best (l.map (fun e => [e])) = l := by
  induction l with
  | nil => rfl
  | cons a l ih =>
      simp only [List.map_cons, List.filterMap_cons, cluster_best, List.foldl_nil]
      rw [ih]

/-- Deduplication is the identity on any list of pairwise-dissimilar
images (each image becomes its own singleton cluster and represents
itself). -/
theorem dedup_fixed_of_pairwise (l : List Img)
    (h : l.Pairwise (fun a b =>
      calculate_similarity (calculate_perceptual_hash a) (calculate_perceptual_hash b)
        < 9/10)) :
    deduplicate l = l := by
  by_cases hl : l.length ≤ 1
  · rw [deduplicate, if_pos hl]
  · rw [deduplicate, if_neg hl]
    have hp : (l.map mk_entry).Pairwise (fun a b => is_similar a b = false) := by
      rw [List.pairwise_map]
      refine h.imp ?_
      intro a b hab
      rw [is_similar, decide_eq_false_iff_not]
      exact not_le.mpr hab
    rw [csi_singletons _ hp, filterMap_best_singletons]
    have himg : HashEntry.img ∘ mk_entry = id := funext fun i => rfl
    rw [List.map_map, himg, List.map_id]

end Dedup

/-- C10: a list of at most one image passes through `deduplicate`
unchanged (the guard at dedup.py line 39 returns before any hash,
similarity or quality computation), and `get_cluster_info` on such a
list reports one size-1 cluster per image and zero duplicates removed
(lines 211-217). -/
theorem dedup_small_input_passthrough (images : List Dedup.Img)
    (h : images.length ≤ 1) :
    Dedup.deduplicate images = images ∧
      Dedup.get_cluster_info images =
        { total_images := images.length
          clusters := images.length
          duplicates_removed := 0
          cluster_sizes := List.replicate images.length 1 } := by
  constructor
  · rw [Dedup.deduplicate, if_pos h]
  · rw [Dedup.get_cluster_info, if_pos h]

/-- Witness for C10 at a singleton list holding an undecodable image. -/
theorem dedup_small_input_passthrough_witness :
    [Ex.bad_img].length ≤ 1 ∧
      (Dedup.deduplicate [Ex.bad_img] = [Ex.bad_img] ∧
        Dedup.get_cluster_info [Ex.bad_img] =
          { total_images := 1, clusters := 1, duplicates_removed := 0,
            cluster_sizes := [1] }) :=
  ⟨by decide, dedup_small_input_passthrough [Ex.bad_img] (by decide)⟩

/-- C4: the greedy clusters partition the hashed input entries — the
flattened cluster list is a permutation of the entries (so each entry is
in exactly one cluster, counting multiplicity), no cluster is empty, and
there are at most as many clusters as images — and `get_cluster_info`
reports `duplicates_removed = total_images - clusters` with
`clusters ≤ total_images`. -/
theorem clusters_partition_input (images : List Dedup.Img) :
    List.Perm (Dedup.cluster_similar_images (images.map Dedup.mk_entry)).flatten
      (images.map Dedup.mk_entry) ∧
    (∀ e, ((Dedup.cluster_similar_images (images.map Dedup.mk_entry)).map
        (List.count e)).sum = (images.map Dedup.mk_entry).count e) ∧
    (∀ c ∈ Dedup.cluster_similar_images (images.map Dedup.mk_entry), c ≠ []) ∧
    (Dedup.cluster_similar_images (images.map Dedup.mk_entry)).length ≤ images.length ∧
    (Dedup.get_cluster_info images).duplicates_removed =
      (Dedup.get_cluster_info images).total_images -
        (Dedup.get_cluster_info images).clusters ∧
    (Dedup.get_cluster_info images).clusters ≤
      (Dedup.get_cluster_info images).total_images := by
  refine ⟨Dedup.csi_flatten_perm _, fun e => Dedup.csi_count _ e, Dedup.csi_ne_nil _, ?_, ?_, ?_⟩
  · simpa using Dedup.csi_length_le (images.map Dedup.mk_entry)
  · by_cases hl : images.length ≤ 1
    · rw [Dedup.get_cluster_info, if_pos hl]
      simp
    · rw [Dedup.get_cluster_info, if_neg hl]
  · by_cases hl : images.length ≤ 1
    · rw [Dedup.get_cluster_info, if_pos hl]
    · rw [Dedup.get_cluster_info, if_neg hl]
      show ((Dedup.cluster_similar_images (images.map Dedup.mk_entry)).length : ℤ) ≤
        (images.length : ℤ)
      have := Dedup.csi_length_le (images.map Dedup.mk_entry)
      simp only [List.length_map] at this
      exact_mod_cast this

/-- Witness for C4 at the three-image example. -/
theorem clusters_partition_input_witness :
    (∀ c ∈ Dedup.cluster_similar_images ([Ex.img_a, Ex.img_b, Ex.img_c].map Dedup.mk_entry),
      c ≠ []) ∧
    (Dedup.get_cluster_info [Ex.img_a, Ex.img_b, Ex.img_c]).duplicates_removed =
      (Dedup.get_cluster_info [Ex.img_a, Ex.img_b, Ex.img_c]).total_images -
        (Dedup.get_cluster_info [Ex.img_a, Ex.img_b, Ex.img_c]).clusters :=
  ⟨(clusters_partition_input [Ex.img_a, Ex.img_b, Ex.img_c]).2.2.1,
    (clusters_partition_input [Ex.img_a, Ex.img_b, Ex.img_c]).2.2.2.2.1⟩

/-- C7: (a) two images with equal perceptual hashes (Hamming distance 0)
always land in a common cluster; (b) every non-seed cluster member
passed the direct similarity test against its seed, which for 64-bit
hashes forces Hamming distance at most 6 — so no pair at distance > 6
is ever merged by a direct comparison. -/
theorem hash_distance_clustering :
    (∀ (images : List Dedup.Img) (i1 i2 : Dedup.Img), i1 ∈ images → i2 ∈ images →
      Dedup.calculate_perceptual_hash i1 = Dedup.calculate_perceptual_hash i2 →
      ∃ c ∈ Dedup.cluster_similar_images (images.map Dedup.mk_entry),
        Dedup.mk_entry i1 ∈ c ∧ Dedup.mk_entry i2 ∈ c) ∧
    (∀ h1 h2 : List Bool, h1.length = h2.length →
      (Dedup.hamming_distance h1 h2 = 0 ↔ h1 = h2)) ∧
    (∀ l : List Dedup.HashEntry, ∀ c ∈ Dedup.cluster_similar_images l,
      ∃ s t, c = s :: t ∧ ∀ e ∈ t,
        (9:ℚ)/10 ≤ Dedup.calculate_similarity s.hash e.hash ∧
        (s.hash.length = 64 → e.hash.length = 64 →
          Dedup.hamming_distance s.hash e.hash ≤ 6)) := by
  refine ⟨?_, Dedup.hamming_eq_zero_iff, ?_⟩
  · intro images i1 i2 h1 h2 hh
    exact Dedup.csi_same_hash _ _ _ (List.mem_map_of_mem _ h1) (List.mem_map_of_mem _ h2) hh
  · intro l c hc
    obtain ⟨s, t, rfl, hmem⟩ := Dedup.csi_cluster_shape l c hc
    refine ⟨s, t, rfl, fun e he => ?_⟩
    have hsim := hmem e he
    constructor
    · rw [Dedup.is_similar, decide_eq_true_eq] at hsim
      exact hsim
    · intro l1 l2
      exact Dedup.hamming_le_of_is_similar s e l1 l2 hsim

/-- Witness for C7: two images with identical pixel data (hence equal
hashes) share a cluster. -/
theorem hash_distance_clustering_witness :
    ∃ c ∈ Dedup.cluster_similar_images ([Ex.img_b, Ex.img_b2].map Dedup.mk_entry),
      Dedup.mk_entry Ex.img_b ∈ c ∧ Dedup.mk_entry Ex.img_b2 ∈ c :=
  hash_distance_clustering.1 [Ex.img_b, Ex.img_b2] Ex.img_b Ex.img_b2
    (by simp) (by simp) (by decide)

/-- C1 counterexample: an image whose hash computation fails (its bytes
are undecodable, so `Image.open` raises inside
`_calculate_perceptual_hash`) is not excluded from clustering — here it
is clustered together with a decodable image and even returned as the
cluster's representative. -/
theorem hash_failure_excluded_cex :
    Ex.bad_img.decoded = none ∧
      Dedup.deduplicate [Ex.bad_img, Ex.dark_img] = [Ex.bad_img] :=
  ⟨rfl, Ex.dedup_bad_dark⟩

/-- C1 (amended): a hash-computation failure does not exclude the image;
`_calculate_perceptual_hash` swallows the exception and returns the
default all-zero 64-bit hash, after which the image participates in
clustering like any other (and `deduplicate` raises nothing — every
exception path inside it is absorbed, which is why the embedding is
total). -/
theorem hash_failure_default_hash (img : Dedup.Img) (himg : img.decoded = none) :
    Dedup.calculate_perceptual_hash img = List.replicate 64 false ∧
      ∀ images : List Dedup.Img, img ∈ images →
        ∃ c ∈ Dedup.cluster_similar_images (images.map Dedup.mk_entry),
          Dedup.mk_entry img ∈ c := by
  constructor
  · rw [Dedup.calculate_perceptual_hash, himg]
  · intro images hm
    exact Dedup.csi_mem _ _ (List.mem_map_of_mem _ hm)

/-- Witness for the amended C1 at the undecodable example image. -/
theorem hash_failure_default_hash_witness :
    Ex.bad_img.decoded = none ∧
      (Dedup.calculate_perceptual_hash Ex.bad_img = List.replicate 64 false ∧
        ∀ images : List Dedup.Img, Ex.bad_img ∈ images →
          ∃ c ∈ Dedup.cluster_similar_images (images.map Dedup.mk_entry),
            Dedup.mk_entry Ex.bad_img ∈ c) :=
  ⟨rfl, hash_failure_default_hash Ex.bad_img rfl⟩

/-- C3 counterexample: `deduplicate` is not idempotent.  On [A, B, C]
with pairwise Hamming distances d(A,B)=6, d(A,C)=7, d(B,C)=1, the first
pass clusters {A,B} (representative B, the higher quality) and {C}; the
second pass merges B and C (distance 1), dropping C from the
representative set. -/
theorem dedup_not_idempotent_cex :
    Dedup.deduplicate [Ex.img_a, Ex.img_b, Ex.img_c] = [Ex.img_b, Ex.img_c] ∧
      Dedup.deduplicate (Dedup.deduplicate [Ex.img_a, Ex.img_b, Ex.img_c]) = [Ex.img_b] := by
  refine ⟨Ex.dedup_abc, ?_⟩
  rw [Ex.dedup_abc, Ex.dedup_bc]

/-- C3 (amended): re-running `deduplicate` on its own representative
list leaves it unchanged provided no two representatives are themselves
similar (similarity ≥ 0.9); without that proviso a second pass can merge
representatives of distinct clusters, because cluster membership is only
ever tested against each cluster's seed, and a cluster's representative
need not be its seed. -/
theorem dedup_idempotent_of_dissimilar_reps (images : List Dedup.Img)
    (h : (Dedup.deduplicate images).Pairwise (fun a b =>
      Dedup.calculate_similarity (Dedup.calculate_perceptual_hash a)
        (Dedup.calculate_perceptual_hash b) < 9/10)) :
    Dedup.deduplicate (Dedup.deduplicate images) = Dedup.deduplicate images :=
  Dedup.dedup_fixed_of_pairwise _ h

/-- Witness for the amended C3: the representatives of [A, C] are
pairwise dissimilar and a second deduplication leaves them unchanged. -/
theorem dedup_idempotent_of_dissimilar_reps_witness :
    (Dedup.deduplicate [Ex.img_a, Ex.img_c]).Pairwise (fun a b =>
      Dedup.calculate_similarity (Dedup.calculate_perceptual_hash a)
        (Dedup.calculate_perceptual_hash b) < 9/10) ∧
    Dedup.deduplicate (Dedup.deduplicate [Ex.img_a, Ex.img_c]) =
      Dedup.deduplicate [Ex.img_a, Ex.img_c] := by
  have hp : (Dedup.deduplicate [Ex.img_a, Ex.img_c]).Pairwise (fun a b =>
      Dedup.calculate_similarity (Dedup.calculate_perceptual_hash a)
        (Dedup.calculate_perceptual_hash b) < 9/10) := by
    rw [Ex.dedup_ac]
    refine List.pairwise_cons.mpr ⟨?_, List.pairwise_singleton _ _⟩
    intro b hb
    rw [List.mem_singleton] at hb
    subst hb
    rw [Ex.hash_a, Ex.hash_c, Ex.sim_ac]
    norm_num
  exact ⟨hp, dedup_idempotent_of_dissimilar_reps [Ex.img_a, Ex.img_c] hp⟩
/-- C2 counterexample: an image whose quality score is exactly 0.3 is
dropped by the pipeline's admission gate (app.py line 136 filters with
the strict `score > 0.3`), even though the quality module's own
`is_acceptable_quality` deems exactly 0.3 acceptable (`>= 0.3`). -/
theorem threshold_boundary_cex :
    App.filter_high_quality [((0 : ℕ), (3:ℚ)/10)] = [] ∧
      Quality.is_acceptable_quality ((3:ℚ)/10) = true := by
  constructor
  · rw [App.filter_high_quality]
    norm_num
  · rw [Quality.is_acceptable_quality, decide_eq_true_eq]

/-- C2 (amended): the pipeline admits a downloaded image to
deduplication and the downstream stages exactly when its quality score
is strictly greater than 0.3; an image scoring exactly 0.3 is dropped.
(The unused helper `is_acceptable_quality` would accept 0.3, but
`process_images` does not call it.) -/
theorem admission_strict_threshold {α : Type} (quality_results : List (α × ℚ)) (x : α) :
    x ∈ App.filter_high_quality quality_results ↔
      ∃ q, (x, q) ∈ quality_results ∧ (3:ℚ)/10 < q := by
  rw [App.filter_high_quality]
  constructor
  · intro hx
    obtain ⟨p, hp, hpx⟩ := List.mem_map.mp hx
    obtain ⟨hpl, hcond⟩ := List.mem_filter.mp hp
    refine ⟨p.2, ?_, by simpa using hcond⟩
    rw [← hpx]
    simpa using hpl
  · rintro ⟨q, hq, hlt⟩
    exact List.mem_map.mpr ⟨(x, q), List.mem_filter.mpr ⟨hq, by simpa using hlt⟩, rfl⟩

/-- Witness for the amended C2: a score of 0.4 is admitted, through the
characterization. -/
theorem admission_strict_threshold_witness :
    (0 : ℕ) ∈ App.filter_high_quality [((0 : ℕ), (2:ℚ)/5)] ↔
      ∃ q, (((0 : ℕ), q) ∈ [((0 : ℕ), (2:ℚ)/5)]) ∧ (3:ℚ)/10 < q :=
  admission_strict_threshold [((0 : ℕ), (2:ℚ)/5)] 0

/-- C9: an undecodable byte blob scores exactly 0.0, returned as a
normal value, and the scorer is total with every score in [0, 1] (the
source clamps with `max(0.0, min(1.0, ...))`; all exception paths are
absorbed inside `analyze_single_image` and its sub-metrics, which is
what makes the embedding a total function). -/
theorem quality_score_total_bounds :
    Quality.analyze_single_image none = 0 ∧
      ∀ d : Option Quality.QImage, 0 ≤ Quality.analyze_single_image d ∧
        Quality.analyze_single_image d ≤ 1 := by
  refine ⟨rfl, ?_⟩
  intro d
  cases d with
  | none =>
      rw [Quality.analyze_single_image]
      norm_num
  | some image =>
      rw [Quality.analyze_single_image]
      exact ⟨le_max_left _ _, max_le (by norm_num) (min_le_left _ _)⟩

/-- C5: an area's `damage_confirmed` is true exactly when the damaged
subset (has_damage = true) has at least 2 members and at least 2 of
them have severity ≥ MODERATE = 2; in particular no single
classification alone (severity 4 included) ever confirms an area. -/
theorem damage_confirmed_iff (area : Agg.DamageArea) (results : List Agg.DamageAnalysis) :
    ((Agg.process_area area results).damage_confirmed = true ↔
      2 ≤ (results.filter (fun r => r.has_damage)).length ∧
        2 ≤ ((results.filter (fun r => r.has_damage)).filter
          (fun r => decide (2 ≤ r.severity))).length) ∧
    ∀ r : Agg.DamageAnalysis, (Agg.process_area area [r]).damage_confirmed = false := by
  constructor
  · show Agg.check_damage_confirmation (results.filter (fun r => r.has_damage)) = true ↔ _
    rw [Agg.check_damage_confirmation]
    by_cases h : (results.filter (fun r => r.has_damage)).length < 2
    · rw [if_pos h]
      simp only [Bool.false_eq_true, false_iff]
      rintro ⟨h2, _⟩
      omega
    · rw [if_neg h, decide_eq_true_eq]
      have h2 : 2 ≤ (results.filter (fun r => r.has_damage)).length := Nat.not_lt.mp h
      exact ⟨fun hc => ⟨h2, hc⟩, fun hc => hc.2⟩
  · intro r
    show Agg.check_damage_confirmation ([r].filter (fun x => x.has_damage)) = false
    rw [Agg.check_damage_confirmation]
    have hle : ([r].filter (fun x => x.has_damage)).length ≤ 1 :=
      List.length_filter_le _ _
    rw [if_pos (Nat.lt_succ_of_le hle)]

/-- Witness for C5 at a two-classification roof example (severities 3
and 2, both damaged: confirmed) and the single-photo case. -/
theorem damage_confirmed_iff_witness :
    ((Agg.process_area Agg.DamageArea.roof [Ex.cls1, Ex.cls2]).damage_confirmed = true ↔
      2 ≤ ([Ex.cls1, Ex.cls2].filter (fun r => r.has_damage)).length ∧
        2 ≤ (([Ex.cls1, Ex.cls2].filter (fun r => r.has_damage)).filter
          (fun r => decide (2 ≤ r.severity))).length) ∧
    ∀ r : Agg.DamageAnalysis,
      (Agg.process_area Agg.DamageArea.roof [r]).damage_confirmed = false :=
  damage_confirmed_iff Agg.DamageArea.roof [Ex.cls1, Ex.cls2]

/-- C6 counterexample: the six "No <area> photos" gaps are emitted in
the iteration order of a Python `set` of str-enum members, which (with
string-hash randomization) is not fixed; under the admissible iteration
order that begins attic, roof, ... the emitted list differs from the
claimed fixed roof-first list. -/
theorem gap_order_cex :
    List.Perm [Agg.DamageArea.attic, Agg.DamageArea.roof, Agg.DamageArea.siding,
        Agg.DamageArea.garage, Agg.DamageArea.windows, Agg.DamageArea.gutters]
      Agg.critical_areas ∧
    Agg.identify_data_gaps
        [Agg.DamageArea.attic, Agg.DamageArea.roof, Agg.DamageArea.siding,
          Agg.DamageArea.garage, Agg.DamageArea.windows, Agg.DamageArea.gutters] [] ≠
      ["No roof photos", "No attic photos", "No siding photos", "No garage photos",
        "No windows photos", "No gutters photos",
        "Limited area coverage - need more photos"] := by
  constructor
  · decide
  · decide

/-- C6 (amended): on an empty aggregate list, `identify_data_gaps`
returns exactly seven strings — one "No <area> photos" gap per each of
the six areas, in the set's iteration order (some permutation of the
six, not guaranteed to be roof, attic, siding, garage, windows,
gutters), followed last by the coverage catch-all; as a multiset the
output equals the claimed seven strings. -/
theorem empty_input_gaps (set_order : List Agg.DamageArea)
    (h : List.Perm set_order Agg.critical_areas) :
    Agg.identify_data_gaps set_order [] =
      set_order.map (fun a => "No " ++ a.value ++ " photos") ++
        ["Limited area coverage - need more photos"] ∧
    (Agg.identify_data_gaps set_order []).length = 7 ∧
    List.Perm (Agg.identify_data_gaps set_order [])
      ["No roof photos", "No attic photos", "No siding photos", "No garage photos",
        "No windows photos", "No gutters photos",
        "Limited area coverage - need more photos"] := by
  have heq : Agg.identify_data_gaps set_order [] =
      set_order.map (fun a => "No " ++ a.value ++ " photos") ++
        ["Limited area coverage - need more photos"] := by
    rw [Agg.identify_data_gaps]
    simp
  refine ⟨heq, ?_, ?_⟩
  · rw [heq]
    have h6 : set_order.length = 6 := by
      rw [h.length_eq]
      rfl
    simp [h6]
  · rw [heq]
    have hmap : Agg.critical_areas.map (fun a => "No " ++ a.value ++ " photos") =
        ["No roof photos", "No attic photos", "No siding photos", "No garage photos",
          "No windows photos", "No gutters photos"] := by
      decide
    have hperm := (h.map (fun a => "No " ++ a.value ++ " photos"))
    rw [hmap] at hperm
    exact hperm.append_right ["Limited area coverage - need more photos"]

/-- Witness for the amended C6: with the source-order iteration the
output is exactly the claimed seven strings in the claimed order. -/
theorem empty_input_gaps_witness :
    List.Perm Agg.critical_areas Agg.critical_areas ∧
      (Agg.identify_data_gaps Agg.critical_areas [] =
        Agg.critical_areas.map (fun a => "No " ++ a.value ++ " photos") ++
          ["Limited area coverage - need more photos"] ∧
      (Agg.identify_data_gaps Agg.critical_areas []).length = 7 ∧
      List.Perm (Agg.identify_data_gaps Agg.critical_areas [])
        ["No roof photos", "No attic photos", "No siding photos", "No garage photos",
          "No windows photos", "No gutters photos",
          "Limited area coverage - need more photos"]) :=
  ⟨List.Perm.refl _, empty_input_gaps Agg.critical_areas (List.Perm.refl _)⟩

namespace Agg

/-- Half-even rounding lies between floor and ceil. -/
theorem round_half_even_bounds (x : ℚ) :
    ⌊x⌋ ≤ round_half_even x ∧ round_half_even x ≤ ⌈x⌉ := by
  rw [round_half_even]
  split_ifs with h1 h2 h3
  · exact ⟨le_rfl, Int.floor_le_ceil x⟩
  · refine ⟨by omega, ?_⟩
    rw [Int.add_one_le_iff, Int.lt_ceil]
    have := Int.floor_le x
    linarith
  · exact ⟨le_rfl, Int.floor_le_ceil x⟩
  · refine ⟨by omega, ?_⟩
    rw [Int.add_one_le_iff, Int.lt_ceil]
    have h12 : (1:ℚ)/2 ≤ x - ⌊x⌋ := le_of_not_lt h1
    linarith

/-- Rounding a nonnegative value is nonnegative. -/
theorem py_round_nonneg (n : ℕ) (x : ℚ) (hx : 0 ≤ x) : 0 ≤ py_round n x := by
  rw [py_round]
  apply div_nonneg _ (by positivity)
  have h := (round_half_even_bounds (x * 10 ^ n)).1
  have hf : (0 : ℤ) ≤ ⌊x * 10 ^ n⌋ := Int.floor_nonneg.mpr (by positivity)
  exact_mod_cast le_trans hf h

/-- Rounding cannot exceed an integer upper bound of the value. -/
theorem py_round_le (n : ℕ) (x : ℚ) (m : ℤ) (hx : x ≤ m) : py_round n x ≤ m := by
  rw [py_round, div_le_iff₀ (by positivity)]
  have h := (round_half_even_bounds (x * 10 ^ n)).2
  have hc : ⌈x * 10 ^ n⌉ ≤ m * 10 ^ n := by
    rw [Int.ceil_le]
    push_cast
    exact mul_le_mul_of_nonneg_right hx (by positivity)
  calc (round_half_even (x * 10 ^ n) : ℚ) ≤ (⌈x * 10 ^ n⌉ : ℚ) := by exact_mod_cast h
    _ ≤ (m : ℚ) * 10 ^ n := by exact_mod_cast hc

theorem sum_map_nonneg (l : List DamageAnalysis) (f : DamageAnalysis → ℚ)
    (h : ∀ r ∈ l, 0 ≤ f r) : 0 ≤ (l.map f).sum := by
  apply List.sum_nonneg
  intro x hx
  obtain ⟨r, hr, rfl⟩ := List.mem_map.mp hx
  exact h r hr

/-- Severity-times-quality sums are bounded by 4 times the weight sum. -/
theorem sum_sevq_le (l : List DamageAnalysis)
    (h : ∀ r ∈ l, r.severity ≤ 4 ∧ 0 ≤ r.quality_score) :
    (l.map (fun r => (r.severity : ℚ) * r.quality_score)).sum ≤
      4 * (l.map (fun r => r.quality_score)).sum := by
  rw [← List.sum_map_mul_left]
  apply List.sum_le_sum
  intro r hr
  obtain ⟨h4, hq⟩ := h r hr
  have hs : (r.severity : ℚ) ≤ 4 := by exact_mod_cast h4
  exact mul_le_mul_of_nonneg_right hs hq

/-- Severity sums are bounded by 4 times the length. -/
theorem sum_sev_le (l : List DamageAnalysis) (h : ∀ r ∈ l, r.severity ≤ 4) :
    (l.map (fun r => (r.severity : ℚ))).sum ≤ 4 * l.length := by
  have hle : (l.map (fun r => (r.severity : ℚ))).sum ≤
      (l.map (fun _ => (4 : ℚ))).sum := by
    apply List.sum_le_sum
    intro r hr
    exact_mod_cast h r hr
  calc (l.map (fun r => (r.severity : ℚ))).sum ≤ (l.map (fun _ => (4 : ℚ))).sum := hle
    _ = 4 * l.length := by
        rw [List.map_const']
        rw [List.sum_replicate]
        rw [nsmul_eq_mul]
        ring

/-- A sum of values bounded by 1 is bounded by the length. -/
theorem sum_le_length (l : List DamageAnalysis) (f : DamageAnalysis → ℚ)
    (h : ∀ r ∈ l, f r ≤ 1) : (l.map f).sum ≤ l.length := by
  have hle : (l.map f).sum ≤ (l.map (fun _ => (1 : ℚ))).sum := by
    apply List.sum_le_sum
    intro r hr
    exact h r hr
  calc (l.map f).sum ≤ (l.map (fun _ => (1 : ℚ))).sum := hle
    _ = l.length := by
        rw [List.map_const']
        rw [List.sum_replicate]
        rw [nsmul_eq_mul]
        ring

/-- Zeta-reduced form of `calculate_area_severity` (the `let` for the
total weight unfolded), for case splits in proofs. -/
theorem calculate_area_severity_eq (l : List DamageAnalysis) :
    calculate_area_severity l =
      if l = [] then 0
      else if 0 < (l.map (fun r => r.quality_score)).sum then
        (l.map (fun r => (r.severity : ℚ) * r.quality_score)).sum /
          (l.map (fun r => r.quality_score)).sum
      else (l.map (fun r => (r.severity : ℚ))).sum / (l.length : ℚ) := rfl

/-- The (unrounded) per-area weighted severity stays in [0, 4]. -/
theorem area_severity_bounds (l : List DamageAnalysis)
    (h : ∀ r ∈ l, r.severity ≤ 4 ∧ 0 ≤ r.quality_score) :
    0 ≤ calculate_area_severity l ∧ calculate_area_severity l ≤ 4 := by
  rw [calculate_area_severity_eq]
  by_cases h0 : l = []
  · rw [if_pos h0]
    norm_num
  · rw [if_neg h0]
    by_cases hw : 0 < (l.map (fun r => r.quality_score)).sum
    · rw [if_pos hw]
      constructor
      · exact div_nonneg
          (sum_map_nonneg _ _ fun r hr => mul_nonneg (by positivity) (h r hr).2)
          (le_of_lt hw)
      · rw [div_le_iff₀ hw]
        have := sum_sevq_le l h
        linarith
    · rw [if_neg hw]
      have hlen : 0 < (l.length : ℚ) := by
        have := List.length_pos.mpr h0
        exact_mod_cast this
      constructor
      · exact div_nonneg (sum_map_nonneg _ _ fun r hr => by positivity) (le_of_lt hlen)
      · rw [div_le_iff₀ hlen]
        have := sum_sev_le l (fun r hr => (h r hr).1)
        linarith

end Agg

namespace Agg

/-- Zeta-reduced form of `calculate_overall_severity`. -/
theorem calculate_overall_severity_eq (l : List DamageAnalysis) :
    calculate_overall_severity l =
      if l = [] then 0
      else if l.filter (fun r => r.has_damage) = [] then 0
      else if ((l.filter (fun r => r.has_damage)).map (fun r => r.quality_score)).sum = 0 then
        py_round 1
          (((l.filter (fun r => r.has_damage)).map (fun r => (r.severity : ℚ))).sum /
            ((l.filter (fun r => r.has_damage)).length : ℚ))
      else
        py_round 1
          (((l.filter (fun r => r.has_damage)).map
              (fun r => (r.severity : ℚ) * r.quality_score)).sum /
            ((l.filter (fun r => r.has_damage)).map (fun r => r.quality_score)).sum) := rfl

/-- Zeta-reduced form of `calculate_confidence`. -/
theorem calculate_confidence_eq (l : List DamageAnalysis) :
    calculate_confidence l =
      if l = [] then 0
      else py_round 2
        (((l.map (fun r => r.quality_score)).sum / (l.length : ℚ)) * (3/10) +
          (min 1 (((((l.filter (fun r => decide (r.area ≠ .unknown))).map
            (fun r => r.area)).dedup).length : ℚ) / 3)) * (2/10) +
          (if 0 < (l.filter (fun r => r.has_damage)).length then
            (((l.filter (fun r => r.has_damage)).length : ℚ) / (l.length : ℚ))
          else 1/2) * (2/10) +
          ((l.map (fun r => r.confidence)).sum / (l.length : ℚ)) * (3/10)) := rfl

/-- The overall severity stays in [0, 4]. -/
theorem overall_severity_bounds (l : List DamageAnalysis)
    (h : ∀ r ∈ l, r.severity ≤ 4 ∧ 0 ≤ r.quality_score) :
    0 ≤ calculate_overall_severity l ∧ calculate_overall_severity l ≤ 4 := by
  rw [calculate_overall_severity_eq]
  by_cases h0 : l = []
  · rw [if_pos h0]
    norm_num
  · rw [if_neg h0]
    have hmem : ∀ r ∈ l.filter (fun r => r.has_damage),
        r.severity ≤ 4 ∧ 0 ≤ r.quality_score :=
      fun r hr => h r (List.mem_of_mem_filter hr)
    by_cases h1 : l.filter (fun r => r.has_damage) = []
    · rw [if_pos h1]
      norm_num
    · rw [if_neg h1]
      have hlen : 0 < ((l.filter (fun r => r.has_damage)).length : ℚ) := by
        exact_mod_cast List.length_pos.mpr h1
      by_cases h2 : ((l.filter (fun r => r.has_damage)).map (fun r => r.quality_score)).sum = 0
      · rw [if_pos h2]
        have hb1 : 0 ≤ ((l.filter (fun r => r.has_damage)).map
            (fun r => (r.severity : ℚ))).sum / ((l.filter (fun r => r.has_damage)).length : ℚ) :=
          div_nonneg (sum_map_nonneg _ _ fun r _ => by positivity) (le_of_lt hlen)
        have hb2 : ((l.filter (fun r => r.has_damage)).map
            (fun r => (r.severity : ℚ))).sum /
              ((l.filter (fun r => r.has_damage)).length : ℚ) ≤ 4 := by
          rw [div_le_iff₀ hlen]
          have := sum_sev_le (l.filter (fun r => r.has_damage)) (fun r hr => (hmem r hr).1)
          linarith
        refine ⟨py_round_nonneg _ _ hb1, ?_⟩
        have := py_round_le 1 _ 4 (by exact_mod_cast hb2)
        exact_mod_cast this
      · rw [if_neg h2]
        have hw : 0 < ((l.filter (fun r => r.has_damage)).map
            (fun r => r.quality_score)).sum :=
          lt_of_le_of_ne (sum_map_nonneg _ _ fun r hr => (hmem r hr).2) (Ne.symm h2)
        have hb1 : 0 ≤ ((l.filter (fun r => r.has_damage)).map
            (fun r => (r.severity : ℚ) * r.quality_score)).sum /
              ((l.filter (fun r => r.has_damage)).map (fun r => r.quality_score)).sum :=
          div_nonneg
            (sum_map_nonneg _ _ fun r hr => mul_nonneg (by positivity) (hmem r hr).2)
            (le_of_lt hw)
        have hb2 : ((l.filter (fun r => r.has_damage)).map
            (fun r => (r.severity : ℚ) * r.quality_score)).sum /
              ((l.filter (fun r => r.has_damage)).map (fun r => r.quality_score)).sum ≤ 4 := by
          rw [div_le_iff₀ hw]
          have := sum_sevq_le (l.filter (fun r => r.has_damage)) hmem
          linarith
        refine ⟨py_round_nonneg _ _ hb1, ?_⟩
        have := py_round_le 1 _ 4 (by exact_mod_cast hb2)
        exact_mod_cast this

/-- The confidence blend stays in [0, 1]. -/
theorem confidence_bounds (l : List DamageAnalysis)
    (h : ∀ r ∈ l, (0 ≤ r.quality_score ∧ r.quality_score ≤ 1) ∧
      0 ≤ r.confidence ∧ r.confidence ≤ 1) :
    0 ≤ calculate_confidence l ∧ calculate_confidence l ≤ 1 := by
  rw [calculate_confidence_eq]
  by_cases h0 : l = []
  · rw [if_pos h0]
    norm_num
  · rw [if_neg h0]
    have hlen : 0 < (l.length : ℚ) := by
      exact_mod_cast List.length_pos.mpr h0
    have havgq0 : 0 ≤ (l.map (fun r => r.quality_score)).sum / (l.length : ℚ) :=
      div_nonneg (sum_map_nonneg _ _ fun r hr => (h r hr).1.1) (le_of_lt hlen)
    have havgq1 : (l.map (fun r => r.quality_score)).sum / (l.length : ℚ) ≤ 1 := by
      rw [div_le_one hlen]
      exact sum_le_length _ _ fun r hr => (h r hr).1.2
    have hcov0 : (0:ℚ) ≤ min 1 (((((l.filter (fun r => decide (r.area ≠ .unknown))).map
        (fun r => r.area)).dedup).length : ℚ) / 3) :=
      le_min (by norm_num) (by positivity)
    have hcov1 : min 1 (((((l.filter (fun r => decide (r.area ≠ .unknown))).map
        (fun r => r.area)).dedup).length : ℚ) / 3) ≤ 1 := min_le_left _ _
    have hcons0 : (0:ℚ) ≤ (if 0 < (l.filter (fun r => r.has_damage)).length then
        (((l.filter (fun r => r.has_damage)).length : ℚ) / (l.length : ℚ))
      else 1/2) := by
      split_ifs
      · positivity
      · norm_num
    have hcons1 : (if 0 < (l.filter (fun r => r.has_damage)).length then
        (((l.filter (fun r => r.has_damage)).length : ℚ) / (l.length : ℚ))
      else 1/2) ≤ 1 := by
      split_ifs
      · rw [div_le_one hlen]
        exact_mod_cast List.length_filter_le _ _
      · norm_num
    have havgc0 : 0 ≤ (l.map (fun r => r.confidence)).sum / (l.length : ℚ) :=
      div_nonneg (sum_map_nonneg _ _ fun r hr => (h r hr).2.1) (le_of_lt hlen)
    have havgc1 : (l.map (fun r => r.confidence)).sum / (l.length : ℚ) ≤ 1 := by
      rw [div_le_one hlen]
      exact sum_le_length _ _ fun r hr => (h r hr).2.2
    constructor
    · apply py_round_nonneg
      linarith
    · have hble : ((l.map (fun r => r.quality_score)).sum / (l.length : ℚ)) * (3/10) +
          (min 1 (((((l.filter (fun r => decide (r.area ≠ .unknown))).map
            (fun r => r.area)).dedup).length : ℚ) / 3)) * (2/10) +
          (if 0 < (l.filter (fun r => r.has_damage)).length then
            (((l.filter (fun r => r.has_damage)).length : ℚ) / (l.length : ℚ))
          else 1/2) * (2/10) +
          ((l.map (fun r => r.confidence)).sum / (l.length : ℚ)) * (3/10) ≤ 1 := by
        linarith
      have := py_round_le 2 _ 1 (by exact_mod_cast hble)
      exact_mod_cast this

end Agg

/-- C8: for classifications with severities in 0..4 and quality scores
and confidences in [0, 1], the overall severity and every area's
average severity lie in [0, 4], and the confidence lies in [0, 1]. -/
theorem aggregate_output_bounds (results : List Agg.DamageAnalysis)
    (h : ∀ r ∈ results, r.severity ≤ 4 ∧
      (0 ≤ r.quality_score ∧ r.quality_score ≤ 1) ∧
      (0 ≤ r.confidence ∧ r.confidence ≤ 1)) :
    (0 ≤ Agg.calculate_overall_severity results ∧
      Agg.calculate_overall_severity results ≤ 4) ∧
    (∀ area, 0 ≤ (Agg.process_area area results).avg_severity ∧
      (Agg.process_area area results).avg_severity ≤ 4) ∧
    (0 ≤ Agg.calculate_confidence results ∧ Agg.calculate_confidence results ≤ 1) := by
  refine ⟨?_, ?_, ?_⟩
  · exact Agg.overall_severity_bounds results
      (fun r hr => ⟨(h r hr).1, (h r hr).2.1.1⟩)
  · intro area
    show 0 ≤ Agg.py_round 1 (Agg.calculate_area_severity
        (results.filter (fun r => r.has_damage))) ∧
      Agg.py_round 1 (Agg.calculate_area_severity
        (results.filter (fun r => r.has_damage))) ≤ 4
    have hb := Agg.area_severity_bounds (results.filter (fun r => r.has_damage))
      (fun r hr => ⟨(h r (List.mem_of_mem_filter hr)).1,
        (h r (List.mem_of_mem_filter hr)).2.1.1⟩)
    refine ⟨Agg.py_round_nonneg _ _ hb.1, ?_⟩
    have := Agg.py_round_le 1 _ 4 (by exact_mod_cast hb.2)
    exact_mod_cast this
  · exact Agg.confidence_bounds results (fun r hr => (h r hr).2)

/-- Witness for C8 at a concrete three-classification list. -/
theorem aggregate_output_bounds_witness :
    (∀ r ∈ [Ex.cls1, Ex.cls2, Ex.cls3], r.severity ≤ 4 ∧
      (0 ≤ r.quality_score ∧ r.quality_score ≤ 1) ∧
      (0 ≤ r.confidence ∧ r.confidence ≤ 1)) ∧
    ((0 ≤ Agg.calculate_overall_severity [Ex.cls1, Ex.cls2, Ex.cls3] ∧
      Agg.calculate_overall_severity [Ex.cls1, Ex.cls2, Ex.cls3] ≤ 4) ∧
    (∀ area, 0 ≤ (Agg.process_area area [Ex.cls1, Ex.cls2, Ex.cls3]).avg_severity ∧
      (Agg.process_area area [Ex.cls1, Ex.cls2, Ex.cls3]).avg_severity ≤ 4) ∧
    (0 ≤ Agg.calculate_confidence [Ex.cls1, Ex.cls2, Ex.cls3] ∧
      Agg.calculate_confidence [Ex.cls1, Ex.cls2, Ex.cls3] ≤ 1)) := by
  have hh : ∀ r ∈ [Ex.cls1, Ex.cls2, Ex.cls3], r.severity ≤ 4 ∧
      (0 ≤ r.quality_score ∧ r.quality_score ≤ 1) ∧
      (0 ≤ r.confidence ∧ r.confidence ≤ 1) := by
    intro r hr
    rcases List.mem_cons.mp hr with h | hr
    · subst h
      refine ⟨by norm_num [Ex.cls1], ⟨by norm_num [Ex.cls1], by norm_num [Ex.cls1]⟩,
        by norm_num [Ex.cls1], by norm_num [Ex.cls1]⟩
    rcases List.mem_cons.mp hr with h | hr
    · subst h
      refine ⟨by norm_num [Ex.cls2], ⟨by norm_num [Ex.cls2], by norm_num [Ex.cls2]⟩,
        by norm_num [Ex.cls2], by norm_num [Ex.cls2]⟩
    rcases List.mem_cons.mp hr with h | hr
    · subst h
      refine ⟨by norm_num [Ex.cls3], ⟨by norm_num [Ex.cls3], by norm_num [Ex.cls3]⟩,
        by norm_num [Ex.cls3], by norm_num [Ex.cls3]⟩
    · simp at hr
  exact ⟨hh, aggregate_output_bounds [Ex.cls1, Ex.cls2, Ex.cls3] hh⟩
